import Mathlib

/-!
Verification of the Signed Integrity Graph (SIG) core of the ethos
repository: canonical JSON serialization, content hashing, Ed25519
signing and verification glue (src/ethos/sig.py), and the graph builder
and risk-summary aggregation of the CLI (src/ethos/cli.py,
src/ethos/checks.py).

Modelling conventions:
- Bytes are Nat values below 256; byte strings are List Nat.
- SHA-256 is implemented concretely (FIPS 180-4) over such byte lists,
  with 32-bit words as Nat reduced mod 2 ^ 32.
- Base64 is implemented concretely, matching the standard alphabet used
  by base64.b64encode / b64decode.
- The Ed25519 primitives, PEM serialization and PEM parsing live in the
  external cryptography library, not in this repository; they are a
  parameter (structure Ed25519Lib) and claims state the hypotheses they
  rely on (for instance, that verifying a signature produced with the
  matching key succeeds).
- Python exceptions are modelled with Except String; a Python function
  that can raise becomes a Lean function into Except.
- Python floats that carry risk scores are modelled as rationals.
-/

-- ## Decimal rendering of naturals (models the digits emitted by str(n)
-- and f-strings such as f"n\x7bi+1\x7d")

def digitChar (n : Nat) : Char := "0123456789".toList.getD n '0'

def natReprAux : Nat → Nat → List Char
  | 0, _ => []
  | fuel + 1, n =>
    if n < 10 then [digitChar n] else natReprAux fuel (n / 10) ++ [digitChar (n % 10)]

def natRepr (n : Nat) : String := ⟨natReprAux (n + 1) n⟩

def intRepr (n : Int) : String :=
  if n < 0 then "-" ++ natRepr n.natAbs else natRepr n.natAbs

-- Evaluation map used to prove that natRepr is injective.
def evalDigits (l : List Char) : Nat := l.foldl (fun a c => 10 * a + (c.toNat - 48)) 0

-- ## Lowercase hexadecimal

def hexDigitChar (n : Nat) : Char := "0123456789abcdef".toList.getD n '0'

def hexOfBytes (l : List Nat) : String :=
  ⟨(l.map (fun b => [hexDigitChar (b / 16), hexDigitChar (b % 16)])).flatten⟩

-- ## UTF-8 encoding (models str.encode("utf-8"))

def utf8Char (c : Char) : List Nat :=
  let n := c.toNat
  if n < 128 then [n]
  else if n < 2048 then [192 + n / 64, 128 + n % 64]
  else if n < 65536 then [224 + n / 4096, 128 + n / 64 % 64, 128 + n % 64]
  else [240 + n / 262144, 128 + n / 4096 % 64, 128 + n / 64 % 64, 128 + n % 64]

def utf8Encode (s : String) : List Nat := (s.data.map utf8Char).flatten

-- ## Base64 (models base64.b64encode / base64.b64decode on well-formed
-- input; bit operations are written with division and remainder so that
-- omega can reason about them)

def b64Alphabet : List Char :=
  "ABCDEFGHIJKLMNOPQRSTUVWXYZabcdefghijklmnopqrstuvwxyz0123456789+/".toList

def enc6 (n : Nat) : Char := b64Alphabet.getD n '?'

def dec6 (c : Char) : Option Nat := b64Alphabet.indexOf? c

def b64encodeList : List Nat → List Char
  | a :: b :: c :: rest =>
    enc6 (a / 4) :: enc6 (a % 4 * 16 + b / 16) :: enc6 (b % 16 * 4 + c / 64) ::
      enc6 (c % 64) :: b64encodeList rest
  | [a, b] => [enc6 (a / 4), enc6 (a % 4 * 16 + b / 16), enc6 (b % 16 * 4), '=']
  | [a] => [enc6 (a / 4), enc6 (a % 4 * 16), '=', '=']
  | [] => []

def b64decodeList : List Char → Option (List Nat)
  | [] => some []
  | c1 :: c2 :: c3 :: c4 :: rest =>
    match dec6 c1, dec6 c2 with
    | some v1, some v2 =>
      if c3 = '=' then
        if c4 = '=' ∧ rest = [] then some [v1 * 4 + v2 / 16] else none
      else
        match dec6 c3 with
        | some v3 =>
          if c4 = '=' then
            if rest = [] then some [v1 * 4 + v2 / 16, v2 % 16 * 16 + v3 / 4] else none
          else
            match dec6 c4 with
            | some v4 =>
              (b64decodeList rest).map
                (fun tl => (v1 * 4 + v2 / 16) :: (v2 % 16 * 16 + v3 / 4) ::
                           (v3 % 4 * 64 + v4) :: tl)
            | none => none
        | none => none
    | _, _ => none
  | _ => none

def b64encode (l : List Nat) : String := ⟨b64encodeList l⟩

def b64decode (s : String) : Option (List Nat) := b64decodeList s.data

-- ## SHA-256 (FIPS 180-4), words as Nat mod 2 ^ 32

def wordMod : Nat := 4294967296

def rotr (n w : Nat) : Nat := ((w >>> n) ||| (w <<< (32 - n))) % wordMod

def bsig0 (w : Nat) : Nat := rotr 2 w ^^^ rotr 13 w ^^^ rotr 22 w
def bsig1 (w : Nat) : Nat := rotr 6 w ^^^ rotr 11 w ^^^ rotr 25 w
def ssig0 (w : Nat) : Nat := rotr 7 w ^^^ rotr 18 w ^^^ (w >>> 3)
def ssig1 (w : Nat) : Nat := rotr 17 w ^^^ rotr 19 w ^^^ (w >>> 10)

structure H8 where
  a : Nat
  b : Nat
  c : Nat
  d : Nat
  e : Nat
  f : Nat
  g : Nat
  h : Nat

def k256 : List Nat :=
  [1116352408, 1899447441, 3049323471, 3921009573, 961987163, 1508970993,
   2453635748, 2870763221, 3624381080, 310598401, 607225278, 1426881987,
   1925078388, 2162078206, 2614888103, 3248222580, 3835390401, 4022224774,
   264347078, 604807628, 770255983, 1249150122, 1555081692, 1996064986,
   2554220882, 2821834349, 2952996808, 3210313671, 3336571891, 3584528711,
   113926993, 338241895, 666307205, 773529912, 1294757372, 1396182291,
   1695183700, 1986661051, 2177026350, 2456956037, 2730485921, 2820302411,
   3259730800, 3345764771, 3516065817, 3600352804, 4094571909, 275423344,
   430227734, 506948616, 659060556, 883997877, 958139571, 1322822218,
   1537002063, 1747873779, 1955562222, 2024104815, 2227730452, 2361852424,
   2428436474, 2756734187, 3204031479, 3329325298]

def initH8 : H8 :=
  ⟨1779033703, 3144134277, 1013904242, 2773480762, 1359893119, 2600822924, 528734635, 1541459225⟩

def sha256Round (st : H8) (k w : Nat) : H8 :=
  let ch := (st.e &&& st.f) ^^^ ((st.e ^^^ 4294967295) &&& st.g)
  let maj := (st.a &&& st.b) ^^^ (st.a &&& st.c) ^^^ (st.b &&& st.c)
  let t1 := (st.h + bsig1 st.e + ch + k + w) % wordMod
  let t2 := (bsig0 st.a + maj) % wordMod
  ⟨(t1 + t2) % wordMod, st.a, st.b, st.c, (st.d + t1) % wordMod, st.e, st.f, st.g⟩

def extendLoop : Nat → List Nat → List Nat
  | 0, ws => ws
  | fuel + 1, ws =>
    let n := ws.length
    let w := (ssig1 (ws.getD (n - 2) 0) + ws.getD (n - 7) 0 + ssig0 (ws.getD (n - 15) 0) +
              ws.getD (n - 16) 0) % wordMod
    extendLoop fuel (ws ++ [w])

def processBlock (st : H8) (block : List Nat) : H8 :=
  let ws := extendLoop 48 block
  let fin := (k256.zip ws).foldl (fun s p => sha256Round s p.1 p.2) st
  ⟨(st.a + fin.a) % wordMod, (st.b + fin.b) % wordMod, (st.c + fin.c) % wordMod,
   (st.d + fin.d) % wordMod, (st.e + fin.e) % wordMod, (st.f + fin.f) % wordMod,
   (st.g + fin.g) % wordMod, (st.h + fin.h) % wordMod⟩

def toWords : Nat → List Nat → List Nat
  | 0, _ => []
  | fuel + 1, a :: b :: c :: d :: rest =>
    (a * 16777216 + b * 65536 + c * 256 + d) :: toWords fuel rest
  | _ + 1, _ => []

def chunks16 : Nat → List Nat → List (List Nat)
  | 0, _ => []
  | _ + 1, [] => []
  | fuel + 1, l => l.take 16 :: chunks16 fuel (l.drop 16)

def beBytes8 (n : Nat) : List Nat :=
  [n >>> 56 % 256, n >>> 48 % 256, n >>> 40 % 256, n >>> 32 % 256,
   n >>> 24 % 256, n >>> 16 % 256, n >>> 8 % 256, n % 256]

def digestBytes (st : H8) : List Nat :=
  (([st.a, st.b, st.c, st.d, st.e, st.f, st.g, st.h]).map
    (fun w => [w >>> 24 % 256, w >>> 16 % 256, w >>> 8 % 256, w % 256])).flatten

def sha256Bytes (msg : List Nat) : List Nat :=
  let padded := msg ++ 128 :: List.replicate ((64 - (msg.length + 9) % 64) % 64) 0 ++
                beBytes8 (msg.length * 8)
  let words := toWords padded.length padded
  let blocks := chunks16 (words.length + 1) words
  digestBytes (blocks.foldl processBlock initH8)

/-- Hex digest of a byte string, as produced by hashlib.sha256(b).hexdigest(). -/
def sha256hex (msg : List Nat) : String := hexOfBytes (sha256Bytes msg)

-- ## JSON values (the data model shared by graphs, events and documents)
-- A mutual inductive is used so that all recursion over the nested lists
-- is structural; JsonItems and JsonFields are the spines of arrays and
-- objects. Numbers are restricted to integers, which covers every value
-- the SIG subsystem serializes.

mutual

inductive Json where
  | null : Json
  | bool : Bool → Json
  | int : Int → Json
  | str : String → Json
  | arr : JsonItems → Json
  | obj : JsonFields → Json

inductive JsonItems where
  | nil : JsonItems
  | cons : Json → JsonItems → JsonItems

inductive JsonFields where
  | nil : JsonFields
  | cons : String → Json → JsonFields → JsonFields

end

def JsonFields.toList : JsonFields → List (String × Json)
  | .nil => []
  | .cons k v t => (k, v) :: t.toList

def JsonFields.keys : JsonFields → List String
  | .nil => []
  | .cons k _ t => k :: t.keys

-- First-match association lookup; models dict.get(k) on a parsed JSON
-- object (parsed Python dicts have unique keys).
def jget : JsonFields → String → Option Json
  | .nil, _ => none
  | .cons k v t, key => if k = key then some v else jget t key

def nodupKeysB : List String → Bool
  | [] => true
  | k :: rest => !(decide (k ∈ rest)) && nodupKeysB rest

-- Well-formedness: every object has pairwise distinct keys (guaranteed
-- for values parsed from Python dicts, which cannot hold duplicates).
mutual

def jsonWF : Json → Bool
  | .null => true
  | .bool _ => true
  | .int _ => true
  | .str _ => true
  | .arr xs => jsonItemsWF xs
  | .obj fs => nodupKeysB fs.keys && jsonFieldsWF fs

def jsonItemsWF : JsonItems → Bool
  | .nil => true
  | .cons x t => jsonWF x && jsonItemsWF t

def jsonFieldsWF : JsonFields → Bool
  | .nil => true
  | .cons _ v t => jsonWF v && jsonFieldsWF t

end

-- ## The serializer of json.dumps(data, sort_keys=True, ensure_ascii=False)
-- parameterized by the separator pair: canonical form passes (",", ":"),
-- the default used for event hashing in cli.run passes (", ", ": ").

-- Escaping of one character inside a JSON string literal, as json.dumps
-- emits it with ensure_ascii=False.
def escChar (c : Char) : List Char :=
  if c = '"' then ['\\', '"']
  else if c = '\\' then ['\\', '\\']
  else if c = '\n' then ['\\', 'n']
  else if c = '\t' then ['\\', 't']
  else if c = '\r' then ['\\', 'r']
  else if c.toNat = 8 then ['\\', 'b']
  else if c.toNat = 12 then ['\\', 'f']
  else if c.toNat < 32 then
    ['\\', 'u', '0', '0', hexDigitChar (c.toNat / 16), hexDigitChar (c.toNat % 16)]
  else [c]

def strLit (s : String) : String := "\"" ++ ⟨(s.data.map escChar).flatten⟩ ++ "\""

-- Comparison by key used by sort_keys=True: Python compares strings by
-- code points, lexicographically.
def keyLeB : List Char → List Char → Bool
  | [], _ => true
  | _ :: _, [] => false
  | a :: as, b :: bs =>
    if a.toNat < b.toNat then true
    else if a.toNat = b.toNat then keyLeB as bs
    else false

def pairLe (p q : String × String) : Prop := keyLeB p.1.data q.1.data = true

instance : DecidableRel pairLe := fun p q => Bool.decEq (keyLeB p.1.data q.1.data) true

-- Sorting the rendered fields by key; sorted(...) in Python is a stable
-- sort, and on pairwise distinct keys every sort by key agrees, so
-- insertion sort is used here.
def sortPairs (l : List (String × String)) : List (String × String) :=
  l.insertionSort pairLe

mutual

def jserialize (isep ksep : String) : Json → String
  | .null => "null"
  | .bool true => "true"
  | .bool false => "false"
  | .int n => intRepr n
  | .str s => strLit s
  | .arr xs => "[" ++ String.intercalate isep (jserializeItems isep ksep xs) ++ "]"
  -- json.dumps sorts the items of a mapping by key and then emits each
  -- "key": value pair; rendering each value first and then sorting the
  -- rendered pairs by key emits the identical text, since the sort
  -- compares keys only.
  | .obj fs => "\x7b" ++ String.intercalate isep
      ((sortPairs (jserializeFields isep ksep fs)).map
        (fun kv => strLit kv.1 ++ ksep ++ kv.2)) ++ "\x7d"

def jserializeItems (isep ksep : String) : JsonItems → List String
  | .nil => []
  | .cons x t => jserialize isep ksep x :: jserializeItems isep ksep t

def jserializeFields (isep ksep : String) : JsonFields → List (String × String)
  | .nil => []
  | .cons k v t => (k, jserialize isep ksep v) :: jserializeFields isep ksep t

end

/-- canonical_json_bytes of sig.py: json.dumps with sort_keys=True,
separators (",", ":"), ensure_ascii=False, encoded as UTF-8. -/
def canonical_json_bytes (data : Json) : List Nat := utf8Encode (jserialize "," ":" data)

-- json.dumps(event, sort_keys=True, ensure_ascii=False) with the default
-- separators (", ", ": "), as used on each event by cli.run.
def dumpsSortedDefault (data : Json) : String := jserialize ", " ": " data

-- ## Semantic equality of JSON values: equal up to the insertion order
-- of object fields, at every nesting level.

mutual

inductive SemEq : Json → Json → Prop
  | null : SemEq .null .null
  | bool : ∀ b, SemEq (.bool b) (.bool b)
  | int : ∀ n, SemEq (.int n) (.int n)
  | str : ∀ s, SemEq (.str s) (.str s)
  | arr : ∀ xs ys, SemEqItems xs ys → SemEq (.arr xs) (.arr ys)
  | obj : ∀ fs gs₀ gs, SemEqFields fs gs₀ → gs₀.toList.Perm gs.toList →
      SemEq (.obj fs) (.obj gs)

inductive SemEqItems : JsonItems → JsonItems → Prop
  | nil : SemEqItems .nil .nil
  | cons : ∀ x y xs ys, SemEq x y → SemEqItems xs ys →
      SemEqItems (.cons x xs) (.cons y ys)

inductive SemEqFields : JsonFields → JsonFields → Prop
  | nil : SemEqFields .nil .nil
  | cons : ∀ k v w fs gs, SemEq v w → SemEqFields fs gs →
      SemEqFields (.cons k v fs) (.cons k w gs)

end

-- ## src/ethos/sig.py

/-- hash_content: hashlib.sha256(content.encode("utf-8")).hexdigest(). -/
def hash_content (content : String) : String := sha256hex (utf8Encode content)

/-- The Ed25519 and PEM primitives of the external cryptography library,
taken as a parameter. Keys, PEM files and signatures are byte strings.
loadPrivPem / loadPubPem return Except because load_pem_private_key /
load_pem_public_key (together with the isinstance assertion in
verify_graph_signature) raise on corrupt input; verify returns Except
because Ed25519PublicKey.verify raises on any failed verification. -/
structure Ed25519Lib where
  pubOf : List Nat → List Nat
  sign : List Nat → List Nat → List Nat
  verify : List Nat → List Nat → List Nat → Except String Unit
  privToPem : List Nat → List Nat
  pubToPem : List Nat → List Nat
  loadPrivPem : List Nat → Except String (List Nat)
  loadPubPem : List Nat → Except String (List Nat)

/-- The parsed signature document. graph_sha256 is read with .get (absent
gives none); algorithm and signature_b64 are the written fields. -/
structure SigDoc where
  algorithm : String
  graph_sha256 : Option String
  signature_b64 : String
deriving DecidableEq

-- A file system fragment: newest write first; fsRead returns the most
-- recent content written to a path.
def FS : Type := List (String × List Nat)

def fsWrite (fs : FS) (p : String) (content : List Nat) : FS := (p, content) :: fs

def fsRead (fs : FS) (p : String) : Option (List Nat) := List.lookup p fs

/-- generate_keypair: serializes both halves of a fresh keypair to PEM and
writes them to the two caller-specified paths with Path.write_bytes. The
fresh private key drawn from the secure random source is the privKey
argument. Path.write_bytes replaces any existing file content. -/
def generate_keypair (L : Ed25519Lib) (privKey : List Nat)
    (private_path public_path : String) (fs : FS) : FS :=
  let private_bytes := L.privToPem privKey
  let public_bytes := L.pubToPem (L.pubOf privKey)
  fsWrite (fsWrite fs private_path private_bytes) public_path public_bytes

/-- sign_graph on the parsed graph value and the bytes of the private key
file: canonicalize, load the key (may raise), sign the canonical bytes,
and assemble the signature document that is written to signature_path. -/
def sign_graph (L : Ed25519Lib) (graph : Json) (privPem : List Nat) :
    Except String SigDoc :=
  let payload := canonical_json_bytes graph
  match L.loadPrivPem privPem with
  | .error e => .error e
  | .ok private_key =>
    let signature := L.sign private_key payload
    .ok { algorithm := "ed25519",
          graph_sha256 := some (sha256hex payload),
          signature_b64 := b64encode signature }

/-- verify_graph_signature on the parsed signature document, the parsed
graph value and the bytes of the public key file. Returns Except because
base64.b64decode and load_pem_public_key (plus the isinstance assertion)
are outside the try block and can raise; the crypto verification itself
is wrapped so that every failure becomes the (False, reason) result. -/
def verify_graph_signature (L : Ed25519Lib) (sig_doc : SigDoc) (graph : Json)
    (pubPem : List Nat) : Except String (Bool × String) :=
  let payload := canonical_json_bytes graph
  let current_hash := sha256hex payload
  if some current_hash ≠ sig_doc.graph_sha256 then .ok (false, "Graph hash mismatch.")
  else
    match b64decode sig_doc.signature_b64 with
    | none => .error "binascii.Error: invalid base64 padding"
    | some signature =>
      match L.loadPubPem pubPem with
      | .error e => .error e
      | .ok public_key =>
        match L.verify public_key signature payload with
        | .ok _ => .ok (true, "Signature verified.")
        | .error _ => .ok (false, "Signature verification failed.")

-- ## src/ethos/checks.py (scores as rationals)

structure CheckResult where
  name : String
  score : ℚ
  explanation : String

def _clip (score : ℚ) : ℚ := max 0 (min 1 score)

-- needle in hay on strings (Python substring containment).
def containsSub (needle : List Char) : List Char → Bool
  | [] => needle.isEmpty
  | h :: t => needle.isPrefixOf (h :: t) || containsSub needle t

def strIn (needle hay : String) : Bool := containsSub needle.data hay.data

def lowerStr (s : String) : String := s.map Char.toLower

def certainty_phrases : List String :=
  ["definitely", "certainly", "guaranteed", "always", "without a doubt",
   "undeniably", "100%"]

def evidence_markers : List String :=
  ["according to", "evidence", "source", "citation", "http://", "https://", "[", "]"]

def overconfidence_check (text : String) (require_uncertainty : Bool) : CheckResult :=
  if !require_uncertainty then
    ⟨"overconfidence", 0, "Uncertainty requirement disabled."⟩
  else
    let lowered := lowerStr text
    let certainty_hits := (certainty_phrases.filter (fun p => strIn p lowered)).length
    let has_evidence := evidence_markers.any (fun m => strIn m lowered)
    if certainty_hits = 0 then
      ⟨"overconfidence", 0, "No overconfident certainty phrases detected."⟩
    else
      let score : ℚ := 7/10 + min (3/10) (certainty_hits * (1/10))
      let score := if has_evidence then score - 4/10 else score
      let score := _clip score
      ⟨"overconfidence", score,
        if has_evidence then
          "Certainty language found, but evidence markers/citations are present."
        else "Certainty language found without evidence words or citations."⟩

-- The regular expression patterns of sensitive_data_check; re.findall on
-- them is external library behavior and is a parameter below.
def emailPattern : String :=
  "\\b[a-zA-Z0-9._%+-]+@[a-zA-Z0-9.-]+\\.[A-Za-z]\x7b2,\x7d\\b"
def phonePattern : String :=
  "\\b(?:\\+?1[-.\\s]?)?\\(?\\d\x7b3\x7d\\)?[-.\\s]?\\d\x7b3\x7d[-.\\s]?\\d\x7b4\x7d\\b"
def ssnPattern : String := "\\b\\d\x7b3\x7d-\\d\x7b2\x7d-\\d\x7b4\x7d\\b"

/-- sensitive_data_check, with len(re.findall(pattern, text)) supplied by
the regex engine parameter findallLen. -/
def sensitive_data_check (findallLen : String → String → Nat) (text : String) :
    CheckResult :=
  let hits : List (String × Nat) :=
    [("email", findallLen emailPattern text),
     ("phone", findallLen phonePattern text),
     ("ssn", findallLen ssnPattern text)]
  let total_hits := (hits.map (·.2)).sum
  if total_hits = 0 then
    ⟨"sensitive_data", 0, "No email, phone number, or SSN patterns found."⟩
  else
    let score := _clip (min 1 (35/100 + total_hits * (25/100)))
    let kinds := (hits.filter (fun p => p.2 > 0)).map (·.1)
    ⟨"sensitive_data", score,
      "Detected sensitive data patterns: " ++ String.intercalate ", " kinds ++ "."⟩

def coercive_patterns : List String :=
  ["you must obey", "or else", "don\x27t tell anyone", "keep this secret",
   "you have no choice", "immediately comply", "only a fool would refuse"]

def manipulation_check (text : String) : CheckResult :=
  let lowered := lowerStr text
  let hits := coercive_patterns.filter (fun p => strIn p lowered)
  if hits.isEmpty then
    ⟨"manipulation", 0, "No manipulative/coercive language detected."⟩
  else
    let score := _clip (4/10 + hits.length * (2/10))
    ⟨"manipulation", score,
      "Detected coercive patterns: " ++ String.intercalate ", " hits ++ "."⟩

-- ## src/ethos/cli.py

structure Violation where
  name : String
  score : ℚ
  explanation : String

structure Decision where
  tool_name : String
  decision : String
  reason : String

structure Summary where
  overall_risk_score : ℚ
  violations : List Violation
  tool_decisions : List Decision

/-- round(x, 4) idealized over the rationals. -/
def round4 (q : ℚ) : ℚ := round (q * 10000) / 10000

-- Rendering of the f-string component f"\x7bx:.2f\x7d" (two decimal
-- places), idealized over the rationals.
def fmt2 (q : ℚ) : String :=
  let c : Int := round (q * 100)
  (if c < 0 then "-" else "") ++ natRepr (c.natAbs / 100) ++ "." ++
    (if c.natAbs % 100 < 10 then "0" ++ natRepr (c.natAbs % 100)
     else natRepr (c.natAbs % 100))

def _run_checks (findallLen : String → String → Nat) (text : String)
    (require_uncertainty : Bool) : List CheckResult :=
  [overconfidence_check text require_uncertainty,
   sensitive_data_check findallLen text,
   manipulation_check text]

def _build_summary (checks : List CheckResult) (tool_name : Option String)
    (threshold : ℚ) : Summary :=
  let overall := (checks.map (·.score)).sum / checks.length
  let violations := (checks.filter (fun c => c.score > 0)).map
    (fun c => Violation.mk c.name c.score c.explanation)
  let decisions : List Decision :=
    match tool_name with
    | some tn =>
      [⟨tn, if overall ≥ threshold then "deny" else "allow",
        "overall_risk_score=" ++ fmt2 overall ++ " threshold=" ++ fmt2 threshold⟩]
    | none => []
  ⟨round4 overall, violations, decisions⟩

-- An event of the transcript: one parsed JSONL object.
abbrev Event := JsonFields

structure Metadata where
  agent : String
  role : Json
  tool_name : Json

structure Node where
  id : String
  type : Json
  ts : Json
  content_hash : String
  metadata : Metadata

/-- An edge record; fromId and toId carry the JSON keys "from" and "to". -/
structure Edge where
  fromId : String
  toId : String
  relation : String
deriving DecidableEq

/-- The node built for the event at zero-based position idx by cli.run.
The wall clock read by _utc_ts is injected as the now argument. -/
def mkNode (agent now : String) (idx : Nat) (e : Event) : Node :=
  { id := "n" ++ natRepr (idx + 1),
    type := (jget e "type").getD (.str "event"),
    ts := (jget e "ts").getD (.str now),
    content_hash := hash_content (dumpsSortedDefault (.obj e)),
    metadata := { agent := agent,
                  role := (jget e "role").getD .null,
                  tool_name := (jget e "tool_name").getD .null } }

/-- The node/edge loop of cli.run: i is the enumerate index, prev the
previous_id variable. -/
def buildAux (agent now : String) : Nat → Option String → List Event →
    List Node × List Edge
  | _, _, [] => ([], [])
  | i, prev, e :: rest =>
    let node := mkNode agent now i e
    let (ns, es) := buildAux agent now (i + 1) (some node.id) rest
    (node :: ns,
     (match prev with
      | some p => [{ fromId := p, toId := node.id, relation := "follows" }]
      | none => []) ++ es)

/-- The graph {"nodes": nodes, "edges": edges} assembled by cli.run from
the ordered transcript. -/
def run_build_graph (agent now : String) (events : List Event) :
    List Node × List Edge :=
  buildAux agent now 0 none events

-- ## Concrete instances used by witnesses

instance : Inhabited Json := ⟨.null⟩

instance : Inhabited JsonFields := ⟨.nil⟩

instance : Inhabited Node :=
  ⟨{ id := "", type := .null, ts := .null, content_hash := "",
     metadata := { agent := "", role := .null, tool_name := .null } }⟩

instance : Inhabited Edge := ⟨{ fromId := "", toId := "", relation := "" }⟩

/-- A concrete stand-in for the Ed25519 primitives, used to instantiate
witnesses on closed inputs: a PEM wrapper is one tag byte, signing
prepends the key and verification recomputes the expected signature. -/
def toyLib : Ed25519Lib :=
  { pubOf := fun k => k,
    sign := fun k m => k ++ m,
    verify := fun pub sg m => if sg = pub ++ m then .ok () else .error "InvalidSignature",
    privToPem := fun k => 5 :: k,
    pubToPem := fun k => 6 :: k,
    loadPrivPem := fun b => match b with
      | 5 :: k => .ok k
      | _ => .error "ValueError: could not deserialize key data",
    loadPubPem := fun b => match b with
      | 6 :: k => .ok k
      | _ => .error "ValueError: could not deserialize key data" }

/-- A variant whose verify call always raises with a raw internal error
message; used to witness the exception-collapsing behavior. -/
def toyLibRaise : Ed25519Lib :=
  { toyLib with verify := fun _ _ _ => .error "InternalError from the backend" }

/-- The expected chain of "follows" edges: m edges, the j-th going from
node n(s+j) to node n(s+j+1). -/
def edgeChain (s m : Nat) : List Edge :=
  (List.range m).map (fun j =>
    { fromId := "n" ++ natRepr (s + j), toId := "n" ++ natRepr (s + j + 1),
      relation := "follows" })

-- ## Helper lemmas

-- ### Decimal rendering is injective

theorem evalDigits_append (l : List Char) (c : Char) :
    evalDigits (l ++ [c]) = 10 * evalDigits l + (c.toNat - 48) := by
  simp [evalDigits, List.foldl_append]

theorem digitChar_toNat (n : Nat) (h : n < 10) : (digitChar n).toNat = 48 + n := by
  interval_cases n <;> rfl

theorem natReprAux_eval : ∀ fuel n, n < fuel → evalDigits (natReprAux fuel n) = n := by
  intro fuel
  induction fuel with
  | zero => omega
  | succ f ih =>
    intro n hn
    by_cases h : n < 10
    · simp [natReprAux, h, evalDigits, digitChar_toNat n h]
    · have hdiv : n / 10 < f := by omega
      simp only [natReprAux, if_neg h, evalDigits_append, ih (n / 10) hdiv,
        digitChar_toNat (n % 10) (by omega)]
      omega

theorem natRepr_injective {m n : Nat} (h : natRepr m = natRepr n) : m = n := by
  have hd : natReprAux (m + 1) m = natReprAux (n + 1) n := congrArg String.data h
  have h1 := natReprAux_eval (m + 1) m (Nat.lt_succ_self m)
  have h2 := natReprAux_eval (n + 1) n (Nat.lt_succ_self n)
  rw [hd, h2] at h1
  omega

-- ### Base64 round-trip on byte input

theorem dec6_enc6 : ∀ v, v < 64 → dec6 (enc6 v) = some v := by decide

theorem enc6_ne_pad : ∀ v, v < 64 → enc6 v ≠ '=' := by decide

theorem b64List_roundtrip : ∀ l : List Nat, (∀ b ∈ l, b < 256) →
    b64decodeList (b64encodeList l) = some l
  | [], _ => rfl
  | [a], h => by
    have ha : a < 256 := h a (by simp)
    have h1 : a / 4 < 64 := by omega
    have h2 : a % 4 * 16 < 64 := by omega
    show b64decodeList [enc6 (a / 4), enc6 (a % 4 * 16), '=', '='] = some [a]
    simp only [b64decodeList, dec6_enc6 _ h1, dec6_enc6 _ h2, if_pos rfl, and_self,
      reduceIte]
    have e1 : a / 4 * 4 + a % 4 * 16 / 16 = a := by omega
    rw [e1]
  | [a, b], h => by
    have ha : a < 256 := h a (by simp)
    have hb : b < 256 := h b (by simp)
    have h1 : a / 4 < 64 := by omega
    have h2 : a % 4 * 16 + b / 16 < 64 := by omega
    have h3 : b % 16 * 4 < 64 := by omega
    show b64decodeList
      [enc6 (a / 4), enc6 (a % 4 * 16 + b / 16), enc6 (b % 16 * 4), '='] = some [a, b]
    simp only [b64decodeList, dec6_enc6 _ h1, dec6_enc6 _ h2, dec6_enc6 _ h3,
      if_neg (enc6_ne_pad _ h3), if_pos rfl, reduceIte]
    have e1 : a / 4 * 4 + (a % 4 * 16 + b / 16) / 16 = a := by omega
    have e2 : (a % 4 * 16 + b / 16) % 16 * 16 + b % 16 * 4 / 4 = b := by omega
    rw [e1, e2]
  | a :: b :: c :: rest, h => by
    have ha : a < 256 := h a (by simp)
    have hb : b < 256 := h b (by simp)
    have hc : c < 256 := h c (by simp)
    have ih := b64List_roundtrip rest (fun x hx => h x (by simp [hx]))
    have h1 : a / 4 < 64 := by omega
    have h2 : a % 4 * 16 + b / 16 < 64 := by omega
    have h3 : b % 16 * 4 + c / 64 < 64 := by omega
    have h4 : c % 64 < 64 := by omega
    show b64decodeList (enc6 (a / 4) :: enc6 (a % 4 * 16 + b / 16) ::
      enc6 (b % 16 * 4 + c / 64) :: enc6 (c % 64) :: b64encodeList rest) =
      some (a :: b :: c :: rest)
    simp only [b64decodeList, dec6_enc6 _ h1, dec6_enc6 _ h2, dec6_enc6 _ h3,
      dec6_enc6 _ h4, if_neg (enc6_ne_pad _ h3), if_neg (enc6_ne_pad _ h4), ih]
    have e1 : a / 4 * 4 + (a % 4 * 16 + b / 16) / 16 = a := by omega
    have e2 : (a % 4 * 16 + b / 16) % 16 * 16 + (b % 16 * 4 + c / 64) / 4 = b := by omega
    have e3 : (b % 16 * 4 + c / 64) % 4 * 64 + c % 64 = c := by omega
    rw [e1, e2, e3]
    rfl

theorem b64_roundtrip (l : List Nat) (h : ∀ b ∈ l, b < 256) :
    b64decode (b64encode l) = some l := b64List_roundtrip l h

-- ### Shape of hex digests

theorem hexDigitChar_mem (n : Nat) : hexDigitChar n ∈ "0123456789abcdef".data := by
  by_cases h : n < 16
  · interval_cases n <;> decide
  · have hlen : ("0123456789abcdef".toList).length ≤ n := by
      have h16 : ("0123456789abcdef".toList).length = 16 := rfl
      omega
    unfold hexDigitChar
    rw [List.getD_eq_default _ _ hlen]
    decide

theorem hexOfBytes_length (l : List Nat) : (hexOfBytes l).length = 2 * l.length := by
  induction l with
  | nil => rfl
  | cons a t ih =>
    simp only [hexOfBytes, String.length, List.map_cons, List.flatten_cons] at ih ⊢
    simp only [List.length_append, List.length_cons, List.length_nil] at ih ⊢
    omega

theorem mem_hexOfBytes {l : List Nat} {c : Char} (h : c ∈ (hexOfBytes l).data) :
    c ∈ "0123456789abcdef".data := by
  simp only [hexOfBytes, List.mem_flatten, List.mem_map] at h
  obtain ⟨sub, ⟨b, _, rfl⟩, hc⟩ := h
  simp only [List.mem_cons, List.not_mem_nil, or_false] at hc
  rcases hc with h | h
  · exact h ▸ hexDigitChar_mem _
  · exact h ▸ hexDigitChar_mem _

theorem sha256Bytes_length (msg : List Nat) : (sha256Bytes msg).length = 32 := rfl

theorem sha256hex_length (msg : List Nat) : (sha256hex msg).length = 64 := by
  unfold sha256hex
  rw [hexOfBytes_length, sha256Bytes_length]

theorem sha256hex_mem {msg : List Nat} {c : Char} (h : c ∈ (sha256hex msg).data) :
    c ∈ "0123456789abcdef".data := mem_hexOfBytes h

-- ### The key comparison is a total preorder, antisymmetric on the keys

theorem keyLeB_cons_iff {x y : Char} {xs ys : List Char} :
    keyLeB (x :: xs) (y :: ys) = true ↔
      x.toNat < y.toNat ∨ (x.toNat = y.toNat ∧ keyLeB xs ys = true) := by
  simp only [keyLeB]
  split_ifs with h1 h2
  · simp [h1]
  · simp [h1, h2]
  · simp [h1, h2]

theorem keyLeB_total : ∀ a b : List Char, keyLeB a b = true ∨ keyLeB b a = true := by
  intro a
  induction a with
  | nil => intro b; left; rfl
  | cons x xs ih =>
    intro b
    cases b with
    | nil => right; rfl
    | cons y ys =>
      rw [keyLeB_cons_iff, keyLeB_cons_iff]
      rcases Nat.lt_trichotomy x.toNat y.toNat with h | h | h
      · exact Or.inl (Or.inl h)
      · rcases ih ys with hh | hh
        · exact Or.inl (Or.inr ⟨h, hh⟩)
        · exact Or.inr (Or.inr ⟨h.symm, hh⟩)
      · exact Or.inr (Or.inl h)

theorem keyLeB_trans : ∀ a b c : List Char,
    keyLeB a b = true → keyLeB b c = true → keyLeB a c = true := by
  intro a
  induction a with
  | nil => intro b c _ _; rfl
  | cons x xs ih =>
    intro b c hab hbc
    cases b with
    | nil => simp [keyLeB] at hab
    | cons y ys =>
      cases c with
      | nil => simp [keyLeB] at hbc
      | cons z zs =>
        rw [keyLeB_cons_iff] at hab hbc ⊢
        rcases hab with h1 | ⟨h1, h1r⟩
        · rcases hbc with h2 | ⟨h2, _⟩
          · exact Or.inl (by omega)
          · exact Or.inl (by omega)
        · rcases hbc with h2 | ⟨h2, h2r⟩
          · exact Or.inl (by omega)
          · exact Or.inr ⟨by omega, ih ys zs h1r h2r⟩

theorem keyLeB_antisymm : ∀ a b : List Char,
    keyLeB a b = true → keyLeB b a = true → a = b := by
  intro a
  induction a with
  | nil =>
    intro b hab hba
    cases b with
    | nil => rfl
    | cons y ys => simp [keyLeB] at hba
  | cons x xs ih =>
    intro b hab hba
    cases b with
    | nil => simp [keyLeB] at hab
    | cons y ys =>
      rw [keyLeB_cons_iff] at hab hba
      rcases hab with h1 | ⟨h1, h1r⟩
      · rcases hba with h2 | ⟨h2, _⟩ <;> omega
      · rcases hba with h2 | ⟨h2, h2r⟩
        · omega
        · have hxy : x = y := Char.ext (UInt32.ext h1)
          rw [hxy, ih ys h1r h2r]

-- ### Sorting rendered pairs is invariant under permutation when the
-- keys are pairwise distinct

theorem sortPairs_eq_of_perm {l₁ l₂ : List (String × String)} (hp : l₁.Perm l₂)
    (hnd : (l₁.map Prod.fst).Nodup) : sortPairs l₁ = sortPairs l₂ := by
  haveI : IsTotal (String × String) pairLe :=
    ⟨fun p q => by
      rcases keyLeB_total p.1.data q.1.data with h | h
      · exact Or.inl h
      · exact Or.inr h⟩
  haveI : IsTrans (String × String) pairLe :=
    ⟨fun p q r h1 h2 => keyLeB_trans _ _ _ h1 h2⟩
  have hnd₂ : (l₂.map Prod.fst).Nodup := ((hp.map Prod.fst).nodup_iff).mp hnd
  have hperm₁ : (sortPairs l₁).Perm l₁ := List.perm_insertionSort pairLe l₁
  have hperm₂ : (sortPairs l₂).Perm l₂ := List.perm_insertionSort pairLe l₂
  have hs₁ : List.Sorted pairLe (sortPairs l₁) := List.sorted_insertionSort pairLe l₁
  have hs₂ : List.Sorted pairLe (sortPairs l₂) := List.sorted_insertionSort pairLe l₂
  have hnds₁ : ((sortPairs l₁).map Prod.fst).Nodup :=
    ((hperm₁.map Prod.fst).nodup_iff).mpr hnd
  have hnds₂ : ((sortPairs l₂).map Prod.fst).Nodup :=
    ((hperm₂.map Prod.fst).nodup_iff).mpr hnd₂
  have hne₁ : (sortPairs l₁).Pairwise (fun p q => p.1 ≠ q.1) := by
    rw [List.Nodup, List.pairwise_map] at hnds₁
    exact hnds₁
  have hne₂ : (sortPairs l₂).Pairwise (fun p q => p.1 ≠ q.1) := by
    rw [List.Nodup, List.pairwise_map] at hnds₂
    exact hnds₂
  have hs₁' : List.Sorted (fun p q : String × String => pairLe p q ∧ p.1 ≠ q.1)
      (sortPairs l₁) := List.Pairwise.and hs₁ hne₁
  have hs₂' : List.Sorted (fun p q : String × String => pairLe p q ∧ p.1 ≠ q.1)
      (sortPairs l₂) := List.Pairwise.and hs₂ hne₂
  haveI : IsAntisymm (String × String) (fun p q => pairLe p q ∧ p.1 ≠ q.1) :=
    ⟨fun p q h1 h2 => absurd (String.ext (keyLeB_antisymm _ _ h1.1 h2.1)) h1.2⟩
  exact List.eq_of_perm_of_sorted (hperm₁.trans (hp.trans hperm₂.symm)) hs₁' hs₂'

-- ### Rendering an object's fields, then sorting, in terms of lists

theorem jserializeFields_toList (isep ksep : String) : ∀ fs : JsonFields,
    jserializeFields isep ksep fs =
      fs.toList.map (fun kv => (kv.1, jserialize isep ksep kv.2))
  | .nil => rfl
  | .cons k v t => by
    simp [jserializeFields, JsonFields.toList, jserializeFields_toList isep ksep t]

theorem keys_toList : ∀ fs : JsonFields, fs.keys = fs.toList.map Prod.fst
  | .nil => rfl
  | .cons k v t => by
    simp [JsonFields.keys, JsonFields.toList, keys_toList t]

theorem nodupKeysB_iff : ∀ l : List String, nodupKeysB l = true ↔ l.Nodup := by
  intro l
  induction l with
  | nil => simp [nodupKeysB]
  | cons k rest ih => simp [nodupKeysB, List.nodup_cons, ih]

-- ### Semantically equal well-formed values serialize identically

mutual

theorem semEq_ser (isep ksep : String) : ∀ {a b : Json}, SemEq a b → jsonWF a = true →
    jserialize isep ksep a = jserialize isep ksep b
  | _, _, .null, _ => rfl
  | _, _, .bool b, _ => rfl
  | _, _, .int n, _ => rfl
  | _, _, .str s, _ => rfl
  | _, _, .arr xs ys hxy, hw => by
    have hxs : jsonItemsWF xs = true := by simpa [jsonWF] using hw
    have hitems := semEqItems_ser isep ksep hxy hxs
    simp only [jserialize, hitems]
  | _, _, .obj fs gs₀ gs hfs hperm, hw => by
    have hw' : nodupKeysB fs.keys = true ∧ jsonFieldsWF fs = true := by
      simpa [jsonWF, Bool.and_eq_true] using hw
    have hrend : jserializeFields isep ksep fs = jserializeFields isep ksep gs₀ :=
      semEqFields_ser isep ksep hfs hw'.2
    have hpr : (jserializeFields isep ksep gs₀).Perm (jserializeFields isep ksep gs) := by
      rw [jserializeFields_toList, jserializeFields_toList]
      exact hperm.map _
    have hnd : ((jserializeFields isep ksep fs).map Prod.fst).Nodup := by
      rw [jserializeFields_toList, List.map_map]
      have hcomp : (Prod.fst ∘ fun kv : String × Json =>
          (kv.1, jserialize isep ksep kv.2)) = Prod.fst := rfl
      rw [hcomp, ← keys_toList]
      exact (nodupKeysB_iff _).mp hw'.1
    have hsort : sortPairs (jserializeFields isep ksep fs) =
        sortPairs (jserializeFields isep ksep gs) :=
      sortPairs_eq_of_perm (by rw [hrend]; exact hpr) hnd
    simp only [jserialize, hsort]

theorem semEqItems_ser (isep ksep : String) : ∀ {xs ys : JsonItems}, SemEqItems xs ys →
    jsonItemsWF xs = true → jserializeItems isep ksep xs = jserializeItems isep ksep ys
  | _, _, .nil, _ => rfl
  | _, _, .cons x y xs ys hxy hrest, hw => by
    have hw' : jsonWF x = true ∧ jsonItemsWF xs = true := by
      simpa [jsonItemsWF, Bool.and_eq_true] using hw
    have h1 := semEq_ser isep ksep hxy hw'.1
    have h2 := semEqItems_ser isep ksep hrest hw'.2
    simp only [jserializeItems, h1, h2]

theorem semEqFields_ser (isep ksep : String) : ∀ {fs gs : JsonFields}, SemEqFields fs gs →
    jsonFieldsWF fs = true → jserializeFields isep ksep fs = jserializeFields isep ksep gs
  | _, _, .nil, _ => rfl
  | _, _, .cons k v w fs gs hvw hrest, hw => by
    have hw' : jsonWF v = true ∧ jsonFieldsWF fs = true := by
      simpa [jsonFieldsWF, Bool.and_eq_true] using hw
    have h1 := semEq_ser isep ksep hvw hw'.1
    have h2 := semEqFields_ser isep ksep hrest hw'.2
    simp only [jserializeFields, h1, h2]

end

-- ### Structure of the graph built by cli.run

theorem buildAux_nodes_length (ag nw : String) : ∀ (es : List Event) (i : Nat)
    (prev : Option String), (buildAux ag nw i prev es).1.length = es.length := by
  intro es
  induction es with
  | nil => intro i prev; rfl
  | cons e rest ih =>
    intro i prev
    simp [buildAux, ih]

theorem buildAux_get_node (ag nw : String) : ∀ (es : List Event) (i : Nat)
    (prev : Option String) (j : Nat), j < es.length →
    (buildAux ag nw i prev es).1.getD j default = mkNode ag nw (i + j) (es.getD j default) := by
  intro es
  induction es with
  | nil => intro i prev j hj; simp at hj
  | cons e rest ih =>
    intro i prev j hj
    cases j with
    | zero => simp [buildAux]
    | succ j' =>
      have hj' : j' < rest.length := by simpa using hj
      simp only [buildAux, List.getD_cons_succ]
      rw [ih (i + 1) (some (mkNode ag nw i e).id) j' hj']
      congr 1
      omega

theorem buildAux_edges_some (ag nw : String) : ∀ (es : List Event) (i : Nat),
    (buildAux ag nw i (some ("n" ++ natRepr i)) es).2 = edgeChain i es.length := by
  intro es
  induction es with
  | nil => intro i; rfl
  | cons e rest ih =>
    intro i
    have hid : (mkNode ag nw i e).id = "n" ++ natRepr (i + 1) := rfl
    simp only [buildAux, hid, ih (i + 1)]
    show ({ fromId := "n" ++ natRepr i, toId := "n" ++ natRepr (i + 1),
            relation := "follows" } : Edge) :: edgeChain (i + 1) rest.length =
      edgeChain i (rest.length + 1)
    simp only [edgeChain, List.range_succ_eq_map, List.map_cons, List.map_map]
    congr 1
    apply List.map_congr_left
    intro j hj
    simp only [Function.comp_apply, Nat.succ_eq_add_one]
    rw [show i + 1 + j = i + (j + 1) from by omega]

theorem run_build_graph_edges (ag nw : String) (es : List Event) :
    (run_build_graph ag nw es).2 = edgeChain 1 (es.length - 1) := by
  cases es with
  | nil => rfl
  | cons e rest =>
    show ([] ++ (buildAux ag nw 1 (some (mkNode ag nw 0 e).id) rest).2) =
      edgeChain 1 (rest.length + 1 - 1)
    have hid : (mkNode ag nw 0 e).id = "n" ++ natRepr 1 := rfl
    rw [List.nil_append, hid, buildAux_edges_some]
    congr 1

-- ### Score clipping and rounding bounds

theorem _clip_nonneg (s : ℚ) : 0 ≤ _clip s := le_max_left 0 _

theorem _clip_le_one (s : ℚ) : _clip s ≤ 1 :=
  max_le (by norm_num) (min_le_left 1 s)

theorem overconfidence_score_bounds (text : String) (ru : Bool) :
    0 ≤ (overconfidence_check text ru).score ∧ (overconfidence_check text ru).score ≤ 1 := by
  unfold overconfidence_check
  dsimp only
  split
  · simp
  · split
    · simp
    · exact ⟨_clip_nonneg _, _clip_le_one _⟩

theorem sensitive_data_score_bounds (findallLen : String → String → Nat) (text : String) :
    0 ≤ (sensitive_data_check findallLen text).score ∧
      (sensitive_data_check findallLen text).score ≤ 1 := by
  unfold sensitive_data_check
  dsimp only
  split
  · simp
  · exact ⟨_clip_nonneg _, _clip_le_one _⟩

theorem manipulation_score_bounds (text : String) :
    0 ≤ (manipulation_check text).score ∧ (manipulation_check text).score ≤ 1 := by
  unfold manipulation_check
  dsimp only
  split
  · simp
  · exact ⟨_clip_nonneg _, _clip_le_one _⟩

theorem round4_bounds {q : ℚ} (h0 : 0 ≤ q) (h1 : q ≤ 1) :
    0 ≤ round4 q ∧ round4 q ≤ 1 := by
  unfold round4
  have hfl : round (q * 10000) = ⌊q * 10000 + 1 / 2⌋ := round_eq _
  have hlow : (0 : ℤ) ≤ ⌊q * 10000 + 1 / 2⌋ := by
    rw [Int.le_floor]
    push_cast
    linarith
  have hhigh : ⌊q * 10000 + 1 / 2⌋ ≤ 10000 := by
    have hle : q * 10000 + 1 / 2 ≤ 10000 + 1 / 2 := by linarith
    have := Int.floor_mono hle
    have hhalf : ⌊(1 / 2 : ℚ)⌋ = 0 := by
      rw [Int.floor_eq_zero_iff]
      constructor <;> norm_num
    have h2 : ⌊(10000 : ℚ) + 1 / 2⌋ = 10000 := by
      rw [show ((10000 : ℚ) + 1 / 2) = (10000 : ℤ) + (1 / 2 : ℚ) by push_cast; ring,
        Int.floor_int_add, hhalf]
      omega
    omega
  constructor
  · apply div_nonneg _ (by norm_num)
    rw [hfl]
    exact_mod_cast hlow
  · rw [div_le_one (by norm_num), hfl]
    calc ((⌊q * 10000 + 1 / 2⌋ : ℤ) : ℚ) ≤ ((10000 : ℤ) : ℚ) := by exact_mod_cast hhigh
    _ = 10000 := by norm_num

-- ### Small glue lemmas

theorem except_bind_ok {ε α β : Type} (a : α) (f : α → Except ε β) :
    (Except.ok a : Except ε α).bind f = f a := rfl

theorem nid_inj {x y : Nat} (h : "n" ++ natRepr x = "n" ++ natRepr y) : x = y := by
  have hd := congrArg String.data h
  rw [String.data_append, String.data_append] at hd
  have hl : (natRepr x).data = (natRepr y).data := List.append_cancel_left hd
  exact natRepr_injective (String.ext hl)

theorem edgeChain_getD {s m j : Nat} (hj : j < m) :
    (edgeChain s m).getD j default =
      { fromId := "n" ++ natRepr (s + j), toId := "n" ++ natRepr (s + j + 1),
        relation := "follows" } := by
  unfold edgeChain
  rw [List.getD_eq_getElem _ _ (by simpa using hj), List.getElem_map]
  rw [List.getElem_range]

theorem edgeChain_mem {s m : Nat} {e : Edge} (he : e ∈ edgeChain s m) :
    ∃ j, j < m ∧ e =
      { fromId := "n" ++ natRepr (s + j), toId := "n" ++ natRepr (s + j + 1),
        relation := "follows" } := by
  unfold edgeChain at he
  rw [List.mem_map] at he
  obtain ⟨j, hj, rfl⟩ := he
  exact ⟨j, by simpa using hj, rfl⟩

-- ## The claims

/-- C5: canonical_json_bytes is deterministic — serializing the same value
twice yields identical bytes — and for semantically equal well-formed
inputs, differing only in object key insertion order at any nesting level
(stored-file whitespace or pretty-printing never reaches the parsed value
at all), the canonical bytes and hence the graph_sha256 digest coincide. -/
theorem c5_canonicalization_deterministic (a b : Json) (h : SemEq a b)
    (hwf : jsonWF a = true) :
    canonical_json_bytes a = canonical_json_bytes a ∧
    canonical_json_bytes a = canonical_json_bytes b ∧
    sha256hex (canonical_json_bytes a) = sha256hex (canonical_json_bytes b) := by
  have hser := semEq_ser "," ":" h hwf
  unfold canonical_json_bytes
  rw [hser]
  exact ⟨rfl, rfl, rfl⟩

theorem c5_witness :
    canonical_json_bytes (.obj (.cons "b" (.int 2)
        (.cons "a" (.obj (.cons "y" .null (.cons "x" (.int 1) .nil))) .nil))) =
      canonical_json_bytes (.obj (.cons "a" (.obj (.cons "x" (.int 1)
        (.cons "y" .null .nil))) (.cons "b" (.int 2) .nil))) := by
  refine (c5_canonicalization_deterministic _ _ ?_ ?_).2.1
  case refine_2 => rfl
  refine SemEq.obj _ (JsonFields.cons "b" (.int 2) (.cons "a"
      (.obj (.cons "x" (.int 1) (.cons "y" .null .nil))) .nil)) _ ?_ ?_
  · refine SemEqFields.cons _ _ _ _ _ (SemEq.int 2)
      (SemEqFields.cons _ _ _ _ _ ?_ SemEqFields.nil)
    refine SemEq.obj _ (JsonFields.cons "y" .null (.cons "x" (.int 1) .nil)) _ ?_ ?_
    · exact SemEqFields.cons _ _ _ _ _ SemEq.null
        (SemEqFields.cons _ _ _ _ _ (SemEq.int 1) SemEqFields.nil)
    · exact List.Perm.swap _ _ _
  · exact List.Perm.swap _ _ _

/-- C6: sign_graph signs the canonical bytes of the graph themselves — the
signature encoded in the document is the Ed25519 signature of the
canonical byte payload, not of its hash — and the document carries the
fixed "ed25519" algorithm identifier, the graph_sha256 field equal to the
64-character lowercase-hex SHA-256 digest of those same canonical bytes,
and signature_b64 equal to the base64 text of the signature bytes. -/
theorem c6_signature_document (L : Ed25519Lib) (g : Json) (privPem k : List Nat)
    (hload : L.loadPrivPem privPem = .ok k) :
    sign_graph L g privPem = .ok
      { algorithm := "ed25519",
        graph_sha256 := some (sha256hex (canonical_json_bytes g)),
        signature_b64 := b64encode (L.sign k (canonical_json_bytes g)) } ∧
    (sha256hex (canonical_json_bytes g)).length = 64 ∧
    ∀ c ∈ (sha256hex (canonical_json_bytes g)).data, c ∈ "0123456789abcdef".data := by
  refine ⟨?_, sha256hex_length _, fun c hc => sha256hex_mem hc⟩
  unfold sign_graph
  rw [hload]

theorem c6_witness :
    sign_graph toyLib .null (toyLib.privToPem [3]) = .ok
      { algorithm := "ed25519",
        graph_sha256 := some (sha256hex (canonical_json_bytes .null)),
        signature_b64 := b64encode (toyLib.sign [3] (canonical_json_bytes .null)) } ∧
    (sha256hex (canonical_json_bytes .null)).length = 64 ∧
    ∀ c ∈ (sha256hex (canonical_json_bytes .null)).data, c ∈ "0123456789abcdef".data :=
  c6_signature_document toyLib .null (toyLib.privToPem [3]) [3] rfl

/-- C1: round-trip — for every graph value and every keypair generated
together (modelled by the hypotheses that PEM serialization round-trips
through the library loaders and that Ed25519 verification accepts a
signature made with the matching private key, with signature output being
bytes), signing the graph and then verifying the unmodified graph against
the produced signature document and the public key returns the success
result (True, "Signature verified."). -/
theorem c1_round_trip (L : Ed25519Lib) (g : Json) (k : List Nat)
    (hpriv : L.loadPrivPem (L.privToPem k) = .ok k)
    (hpub : L.loadPubPem (L.pubToPem (L.pubOf k)) = .ok (L.pubOf k))
    (hverify : L.verify (L.pubOf k) (L.sign k (canonical_json_bytes g))
      (canonical_json_bytes g) = .ok ())
    (hbytes : ∀ b ∈ L.sign k (canonical_json_bytes g), b < 256) :
    (sign_graph L g (L.privToPem k)).bind
      (fun doc => verify_graph_signature L doc g (L.pubToPem (L.pubOf k))) =
    .ok (true, "Signature verified.") := by
  unfold sign_graph
  rw [hpriv, except_bind_ok]
  unfold verify_graph_signature
  dsimp only
  rw [if_neg (by simp), b64_roundtrip _ hbytes, hpub]
  dsimp only
  rw [hverify]

theorem c1_witness :
    (sign_graph toyLib .null (toyLib.privToPem [1])).bind
      (fun doc => verify_graph_signature toyLib doc .null
        (toyLib.pubToPem (toyLib.pubOf [1]))) =
    .ok (true, "Signature verified.") :=
  c1_round_trip toyLib .null [1] rfl rfl rfl (by decide)

/-- C2: when the recomputed SHA-256 hex digest of the canonical bytes of
the supplied graph differs from the graph_sha256 field of the signature
document, verify_graph_signature returns (False, "Graph hash mismatch.")
immediately — the outcome is the same for every crypto backend, signature
field and public key, so the cryptographic check is never consulted — and
in particular any mutation of the stored graph whose canonical digest
differs from the signed digest (SHA-256 collision-freeness assumed as the
hypothesis hne) yields the hash-mismatch reason, not the
signature-failure reason. -/
theorem c2_hash_mismatch_short_circuits :
    (∀ (L : Ed25519Lib) (doc : SigDoc) (g : Json) (pub : List Nat),
      some (sha256hex (canonical_json_bytes g)) ≠ doc.graph_sha256 →
      verify_graph_signature L doc g pub = .ok (false, "Graph hash mismatch.")) ∧
    (∀ (L Lv : Ed25519Lib) (g gMut : Json) (privPem pub : List Nat) (doc : SigDoc),
      sign_graph L g privPem = .ok doc →
      sha256hex (canonical_json_bytes gMut) ≠ sha256hex (canonical_json_bytes g) →
      verify_graph_signature Lv doc gMut pub = .ok (false, "Graph hash mismatch.")) := by
  constructor
  · intro L doc g pub h
    unfold verify_graph_signature
    rw [if_pos h]
  · intro L Lv g gMut privPem pub doc hsign hne
    unfold sign_graph at hsign
    cases hload : L.loadPrivPem privPem with
    | error e =>
      rw [hload] at hsign
      exact absurd hsign (by simp)
    | ok key =>
      rw [hload] at hsign
      have hdoc : doc.graph_sha256 = some (sha256hex (canonical_json_bytes g)) := by
        cases hsign
        rfl
      unfold verify_graph_signature
      rw [if_pos (by rw [hdoc]; simp [hne])]

theorem c2_witness :
    verify_graph_signature toyLib
      { algorithm := "ed25519",
        graph_sha256 := some (sha256hex (canonical_json_bytes (.obj .nil))),
        signature_b64 := b64encode (toyLib.sign [1] (canonical_json_bytes (.obj .nil))) }
      .null [] = .ok (false, "Graph hash mismatch.") :=
  c2_hash_mismatch_short_circuits.2 toyLib toyLib (.obj .nil) .null
    (toyLib.privToPem [1]) [] _ rfl (by decide)

/-- C3: once the recomputed digest matches graph_sha256, the base64 field
decodes and the public key file loads as an Ed25519 key, the outcome of
verify_graph_signature is always a structured ok result: (True,
"Signature verified.") exactly when the library verification succeeds,
and (False, "Signature verification failed.") whenever the library
verification raises — whatever error value it raises — so no exception
escapes the cryptographic stage and no raw backend error variant reaches
the reported outcome. -/
theorem c3_crypto_failures_collapsed (L : Ed25519Lib) (doc : SigDoc) (g : Json)
    (pub sigBytes pk : List Nat)
    (hhash : doc.graph_sha256 = some (sha256hex (canonical_json_bytes g)))
    (hb64 : b64decode doc.signature_b64 = some sigBytes)
    (hload : L.loadPubPem pub = .ok pk) :
    (L.verify pk sigBytes (canonical_json_bytes g) = .ok () ∧
      verify_graph_signature L doc g pub = .ok (true, "Signature verified.")) ∨
    ((∃ e, L.verify pk sigBytes (canonical_json_bytes g) = .error e) ∧
      verify_graph_signature L doc g pub = .ok (false, "Signature verification failed.")) := by
  unfold verify_graph_signature
  rw [if_neg (by rw [hhash]; simp), hb64, hload]
  dsimp only
  cases hv : L.verify pk sigBytes (canonical_json_bytes g) with
  | ok u =>
    cases u
    exact Or.inl ⟨rfl, rfl⟩
  | error e => exact Or.inr ⟨⟨e, rfl⟩, rfl⟩

theorem c3_witness :
    (toyLibRaise.verify [2] [0] (canonical_json_bytes .null) = .ok () ∧
      verify_graph_signature toyLibRaise
        { algorithm := "ed25519",
          graph_sha256 := some (sha256hex (canonical_json_bytes .null)),
          signature_b64 := "AA==" } .null [6, 2] =
        .ok (true, "Signature verified.")) ∨
    ((∃ e, toyLibRaise.verify [2] [0] (canonical_json_bytes .null) = .error e) ∧
      verify_graph_signature toyLibRaise
        { algorithm := "ed25519",
          graph_sha256 := some (sha256hex (canonical_json_bytes .null)),
          signature_b64 := "AA==" } .null [6, 2] =
        .ok (false, "Signature verification failed.")) :=
  c3_crypto_failures_collapsed toyLibRaise _ .null [6, 2] [0] [2] rfl (by decide) rfl

/-- C4: chain integrity — for a transcript of n events, the graph built by
cli.run has exactly n nodes with ids n1, n2, ..., nn assigned sequentially
in input order, exactly n − 1 edges all labelled "follows", the i-th edge
goes from nodes[i].id to nodes[i+1].id, and no edge points at the first
node. -/
theorem c4_chain_integrity (ag nw : String) (events : List Event) :
    (run_build_graph ag nw events).1.length = events.length ∧
    (∀ j, j < events.length →
      ((run_build_graph ag nw events).1.getD j default).id = "n" ++ natRepr (j + 1)) ∧
    (run_build_graph ag nw events).2.length = events.length - 1 ∧
    (∀ j, j + 1 < events.length →
      (run_build_graph ag nw events).2.getD j default =
        { fromId := ((run_build_graph ag nw events).1.getD j default).id,
          toId := ((run_build_graph ag nw events).1.getD (j + 1) default).id,
          relation := "follows" }) ∧
    (∀ e ∈ (run_build_graph ag nw events).2, 0 < events.length →
      e.toId ≠ ((run_build_graph ag nw events).1.getD 0 default).id) := by
  refine ⟨buildAux_nodes_length ag nw events 0 none, ?_, ?_, ?_, ?_⟩
  · intro j hj
    unfold run_build_graph
    rw [buildAux_get_node ag nw events 0 none j hj]
    dsimp only [mkNode]
    rw [show (0 : Nat) + j = j from by omega]
  · rw [run_build_graph_edges]
    unfold edgeChain
    rw [List.length_map, List.length_range]
  · intro j hj
    rw [run_build_graph_edges, edgeChain_getD (by omega)]
    unfold run_build_graph
    rw [buildAux_get_node ag nw events 0 none j (by omega),
      buildAux_get_node ag nw events 0 none (j + 1) (by omega)]
    dsimp only [mkNode]
    rw [show (1 : Nat) + j + 1 = 0 + (j + 1) + 1 from by omega,
      show (1 : Nat) + j = 0 + j + 1 from by omega]
  · intro e he hpos
    rw [run_build_graph_edges] at he
    obtain ⟨j, hj, rfl⟩ := edgeChain_mem he
    unfold run_build_graph
    rw [buildAux_get_node ag nw events 0 none 0 hpos]
    intro hcontra
    have := nid_inj hcontra
    omega

theorem c4_witness :
    ((run_build_graph "agent" "t0" [.nil, .nil]).1.getD 0 default).id =
      "n" ++ natRepr 1 ∧
    (run_build_graph "agent" "t0" [.nil, .nil]).2.getD 0 default =
      { fromId := ((run_build_graph "agent" "t0" [.nil, .nil]).1.getD 0 default).id,
        toId := ((run_build_graph "agent" "t0" [.nil, .nil]).1.getD 1 default).id,
        relation := "follows" } ∧
    (∀ e ∈ (run_build_graph "agent" "t0" [.nil, .nil]).2,
      e.toId ≠ ((run_build_graph "agent" "t0" [.nil, .nil]).1.getD 0 default).id) :=
  ⟨(c4_chain_integrity "agent" "t0" [.nil, .nil]).2.1 0 (by decide),
   (c4_chain_integrity "agent" "t0" [.nil, .nil]).2.2.2.1 0 (by decide),
   fun e he => (c4_chain_integrity "agent" "t0" [.nil, .nil]).2.2.2.2 e he (by decide)⟩

/-- C7 (amended): the content_hash of the node built for each event equals
the SHA-256 hex digest of json.dumps(event, sort_keys=True,
ensure_ascii=False) — the deterministic sorted-key serialization with the
DEFAULT separators (", ", ": ") — of that individual event alone, not of
the growing graph; it is a function of the event only, independent of the
node serialization and stable under recomputation. The original claim
said the digest is over the §4.1 canonical (compact-separator) bytes,
which the code does not do; see the counterexample. -/
theorem c7_content_hash_amended (ag nw : String) (events : List Event) (j : Nat)
    (hj : j < events.length) :
    ((run_build_graph ag nw events).1.getD j default).content_hash =
      hash_content (dumpsSortedDefault (.obj (events.getD j default))) := by
  unfold run_build_graph
  rw [buildAux_get_node ag nw events 0 none j hj]
  rfl

theorem c7_witness :
    ((run_build_graph "agent" "t0" [.cons "role" (.str "user") .nil]).1.getD 0
        default).content_hash =
      hash_content (dumpsSortedDefault (.obj (.cons "role" (.str "user") .nil))) :=
  c7_content_hash_amended "agent" "t0" [.cons "role" (.str "user") .nil] 0 (by decide)

/-- C7 counterexample: for the concrete one-event transcript whose event is
the object with the single field "role": "user", the content_hash produced
by the builder differs from the SHA-256 hex digest of the §4.1 canonical
bytes of that event, because json.dumps with the default separators emits
a space after the colon while canonical_json_bytes does not. -/
theorem c7_counterexample :
    ((run_build_graph "agent" "t0" [.cons "role" (.str "user") .nil]).1.getD 0
        default).content_hash ≠
      sha256hex (canonical_json_bytes (.obj (.cons "role" (.str "user") .nil))) := by
  decide

/-- C10: the graph builder defaults missing optional event fields instead
of failing — an event without "type" yields a node whose type is the
string "event", an event without "role" or "tool_name" records null for
those metadata entries, and the metadata always carries the supplied
agent identifier. -/
theorem c10_event_field_defaults (ag nw : String) (events : List Event) (j : Nat)
    (hj : j < events.length) :
    (jget (events.getD j default) "type" = none →
      ((run_build_graph ag nw events).1.getD j default).type = .str "event") ∧
    (jget (events.getD j default) "role" = none →
      ((run_build_graph ag nw events).1.getD j default).metadata.role = .null) ∧
    (jget (events.getD j default) "tool_name" = none →
      ((run_build_graph ag nw events).1.getD j default).metadata.tool_name = .null) ∧
    ((run_build_graph ag nw events).1.getD j default).metadata.agent = ag := by
  unfold run_build_graph
  rw [buildAux_get_node ag nw events 0 none j hj]
  refine ⟨?_, ?_, ?_, rfl⟩ <;> intro h <;> dsimp only [mkNode] <;> rw [h] <;> rfl

theorem c10_witness :
    ((run_build_graph "agent" "t0" [.nil]).1.getD 0 default).type = .str "event" ∧
    ((run_build_graph "agent" "t0" [.nil]).1.getD 0 default).metadata.role = .null ∧
    ((run_build_graph "agent" "t0" [.nil]).1.getD 0 default).metadata.tool_name = .null ∧
    ((run_build_graph "agent" "t0" [.nil]).1.getD 0 default).metadata.agent = "agent" :=
  have h := c10_event_field_defaults "agent" "t0" [.nil] 0 (by decide)
  ⟨h.1 rfl, h.2.1 rfl, h.2.2.1 rfl, h.2.2.2⟩

/-- C8 counterexample: the destination path "sig.key" already holds
content [1, 2, 3] and no overwrite was requested, yet generate_keypair
completes (its result type has no error outcome at all — the code
performs no existence check and can raise nothing about it) and the
pre-existing file now holds the freshly serialized private key [5, 9]:
the existing key file was silently replaced, refuting the claim that the
operation surfaces an error and aborts. -/
theorem c8_counterexample :
    fsRead [("sig.key", [1, 2, 3])] "sig.key" = some [1, 2, 3] ∧
    fsRead (generate_keypair toyLib [9] "sig.key" "sig.pub"
      [("sig.key", [1, 2, 3])]) "sig.key" = some [5, 9] ∧
    ([5, 9] : List Nat) ≠ [1, 2, 3] := by decide

/-- C8 (amended): generate_keypair writes the PEM serialization of the
private key to private_path and of the public key to public_path
unconditionally, for every prior file-system state — silently replacing
any existing file, with no error surfaced; existence checks are the
responsibility of the caller (cli.init skips generation only when both
key files already exist). -/
theorem c8_keypair_persistence_amended (L : Ed25519Lib) (k : List Nat)
    (p q : String) (fs : FS) (hpq : p ≠ q) :
    fsRead (generate_keypair L k p q fs) p = some (L.privToPem k) ∧
    fsRead (generate_keypair L k p q fs) q = some (L.pubToPem (L.pubOf k)) := by
  unfold generate_keypair fsWrite fsRead
  constructor
  · rw [List.lookup, beq_eq_false_iff_ne.mpr hpq]
    simp [List.lookup]
  · rw [List.lookup]
    simp

theorem c8_witness :
    fsRead (generate_keypair toyLib [9] "sig.key" "sig.pub" []) "sig.key" =
      some (toyLib.privToPem [9]) ∧
    fsRead (generate_keypair toyLib [9] "sig.key" "sig.pub" []) "sig.pub" =
      some (toyLib.pubToPem (toyLib.pubOf [9])) :=
  c8_keypair_persistence_amended toyLib [9] "sig.key" "sig.pub" [] (by decide)

/-- C9: for every non-empty list of check results, the overall_risk_score
of _build_summary is the arithmetic mean of the scores rounded to 4
decimal places, and for the three checks actually run (each of which is
zero or clipped into [0, 1]), the overall_risk_score always lies in
[0, 1]. -/
theorem c9_overall_risk_score :
    (∀ (checks : List CheckResult) (tool : Option String) (thr : ℚ), checks ≠ [] →
      (_build_summary checks tool thr).overall_risk_score =
        round4 ((checks.map CheckResult.score).sum / checks.length)) ∧
    (∀ (findallLen : String → String → Nat) (text : String) (ru : Bool)
        (tool : Option String) (thr : ℚ),
      0 ≤ (_build_summary (_run_checks findallLen text ru) tool thr).overall_risk_score ∧
      (_build_summary (_run_checks findallLen text ru) tool thr).overall_risk_score ≤ 1) := by
  constructor
  · intro checks tool thr _
    rfl
  · intro f text ru tool thr
    obtain ⟨h1a, h1b⟩ := overconfidence_score_bounds text ru
    obtain ⟨h2a, h2b⟩ := sensitive_data_score_bounds f text
    obtain ⟨h3a, h3b⟩ := manipulation_score_bounds text
    have harg : (((_run_checks f text ru).map CheckResult.score).sum /
        ((_run_checks f text ru).length : ℚ)) =
        ((overconfidence_check text ru).score + (sensitive_data_check f text).score +
          (manipulation_check text).score) / 3 := by
      simp [_run_checks]
      ring
    show 0 ≤ round4 (((_run_checks f text ru).map CheckResult.score).sum /
        ((_run_checks f text ru).length : ℚ)) ∧
      round4 (((_run_checks f text ru).map CheckResult.score).sum /
        ((_run_checks f text ru).length : ℚ)) ≤ 1
    rw [harg]
    apply round4_bounds
    · apply div_nonneg _ (by norm_num)
      linarith
    · rw [div_le_one (by norm_num)]
      linarith

theorem c9_witness :
    (_build_summary [{ name := "overconfidence", score := 1/2, explanation := "e" }]
        none (8/10)).overall_risk_score =
      round4 ((([{ name := "overconfidence", score := 1/2, explanation := "e" }] :
        List CheckResult).map CheckResult.score).sum /
        (([{ name := "overconfidence", score := 1/2, explanation := "e" }] :
          List CheckResult).length : ℚ)) ∧
    (0 ≤ (_build_summary (_run_checks (fun _ _ => 0) "hello" true) none
        (8/10)).overall_risk_score ∧
      (_build_summary (_run_checks (fun _ _ => 0) "hello" true) none
        (8/10)).overall_risk_score ≤ 1) :=
  ⟨c9_overall_risk_score.1 _ none (8/10) (List.cons_ne_nil _ _),
   c9_overall_risk_score.2 (fun _ _ => 0) "hello" true none (8/10)⟩
